import Mathlib

/-!
Verification of the JSON Patch (RFC 6902) types package and the patch
engine its specification describes.

The repository ships the operation *type declarations* (`src/types.ts`):
the tagged union of the six operation kinds, each record carrying `op`,
`path : /${string}` and, per kind, `value : unknown` or `from : /${string}`.
The engine itself (pointer resolver, deep-equality comparator, document
mutator, patch interpreter) is described by the specification but is not
part of `src/`; the definitions below marked `Modelled from the spec:`
embed those missing components faithfully from the specification's words.
Definitions for the type layer (`operationPathType`, the operation record
structures, `HostValue`) are embedded directly from `src/types.ts`.
-/

namespace JsonPatch

/-- A document node: object (string-keyed members), array, string, number,
boolean or null.  Numbers keep their decimal representation as
`mantissa / 10 ^ scale` so that numeric equality (`1` vs `1.0`) is
distinguishable from representation equality. -/
inductive Json where
  | null : Json
  | bool (b : Bool) : Json
  | num (mantissa : Int) (scale : Nat) : Json
  | str (s : String) : Json
  | arr (elems : List Json) : Json
  | obj (members : List (String × Json)) : Json
deriving Repr

/-- The six JSON types, used to state the type-mismatch rule of deep
equality. -/
inductive JType where
  | nullT | boolT | numT | strT | arrT | objT
deriving DecidableEq, Repr

/-- The JSON type of a node. -/
def jsonType : Json → JType
  | .null => .nullT
  | .bool _ => .boolT
  | .num _ _ => .numT
  | .str _ => .strT
  | .arr _ => .arrT
  | .obj _ => .objT

/-- First member of an object with the given key, if any. -/
def lookupMember (k : String) : List (String × Json) → Option Json
  | [] => none
  | (k', v) :: rest => if k' = k then some v else lookupMember k rest

mutual

/-- Modelled from the spec: the deep-equality comparator used by `test`
(RFC 6902 equality): type mismatch is unequal; numbers compare by numeric
value; strings by code points; arrays pairwise in order; objects by member
count and key-wise equal counterparts, independent of member order. -/
def deepEqual : Json → Json → Bool
  | .null, .null => true
  | .bool a, .bool b => a == b
  | .num m1 e1, .num m2 e2 => m1 * 10 ^ e2 == m2 * 10 ^ e1
  | .str a, .str b => a == b
  | .arr xs, .arr ys => deepEqualList xs ys
  | .obj ms, .obj ns => ms.length == ns.length && deepEqualMembers ms ns
  | _, _ => false
termination_by a _ => sizeOf a

/-- Pairwise, order-respecting deep equality of array elements. -/
def deepEqualList : List Json → List Json → Bool
  | [], [] => true
  | x :: xs, y :: ys => deepEqual x y && deepEqualList xs ys
  | _, _ => false
termination_by xs _ => sizeOf xs

/-- Every member of the first object has an equal-valued counterpart
(looked up by key) in the second. -/
def deepEqualMembers : List (String × Json) → List (String × Json) → Bool
  | [], _ => true
  | (k, v) :: rest, ns =>
      (match lookupMember k ns with
       | some w => deepEqual v w
       | none => false) && deepEqualMembers rest ns
termination_by ms _ => sizeOf ms

end

/-- Modelled from the spec: RFC 6901 token unescaping, `~1` to `/` and
`~0` to `~`, scanning left to right. -/
def unescapeChars : List Char → List Char
  | [] => []
  | [c] => [c]
  | c :: d :: rest =>
      if c = '~' then
        if d = '1' then '/' :: unescapeChars rest
        else if d = '0' then '~' :: unescapeChars rest
        else c :: unescapeChars (d :: rest)
      else c :: unescapeChars (d :: rest)

/-- Split a character list on `/` boundaries. -/
def splitTokens : List Char → List (List Char)
  | [] => [[]]
  | '/' :: rest => [] :: splitTokens rest
  | c :: rest =>
      match splitTokens rest with
      | [] => [[c]]
      | t :: ts => (c :: t) :: ts

/-- Modelled from the spec: parse a JSON Pointer string into its unescaped
reference tokens.  The root pointer is the empty string (no tokens); any
other pointer must start with `/`. -/
def parsePointer (s : String) : Option (List String) :=
  match s.data with
  | [] => some []
  | '/' :: rest => some ((splitTokens rest).map (fun t => String.mk (unescapeChars t)))
  | _ => none

/-- Modelled from the spec: an array index token must be `0` or a digit
string without a leading zero. -/
def isIndexToken (t : String) : Bool :=
  match t.data with
  | [] => false
  | ['0'] => true
  | c :: cs => c ≠ '0' && c.isDigit && cs.all Char.isDigit

/-- Decimal value of a digit string (accumulator form). -/
def decimalValue : List Char → Nat → Nat
  | [], acc => acc
  | c :: cs, acc => decimalValue cs (acc * 10 + (c.toNat - 48))

/-- Modelled from the spec: parse an array index token, rejecting
malformed tokens (empty, non-digit, leading zero). -/
def parseIndexToken (t : String) : Option Nat :=
  if isIndexToken t then some (decimalValue t.data 0) else none

/-- Error taxonomy of the engine (spec section 7): `pathNotFound`,
`invalidIndex`, `invalidMoveTarget`, `testTargetMissing`, `testFailed`,
and `malformedPointer` for syntactically invalid pointer strings. -/
inductive ErrKind where
  | pathNotFound
  | invalidIndex
  | invalidMoveTarget
  | testTargetMissing
  | testFailed
  | malformedPointer
deriving DecidableEq, Repr

/-- Set member `k` to `v`, overwriting in place if the key exists,
appending otherwise. -/
def setMember (k : String) (v : Json) : List (String × Json) → List (String × Json)
  | [] => [(k, v)]
  | (k', w) :: rest => if k' = k then (k', v) :: rest else (k', w) :: setMember k v rest

/-- Delete the member with key `k` (first occurrence), if present. -/
def eraseMember (k : String) : List (String × Json) → List (String × Json)
  | [] => []
  | (k', v) :: rest => if k' = k then rest else (k', v) :: eraseMember k rest

/-- Insert `v` at position `i`, shifting the elements at position `i` and
above one position to the right. -/
def insertAt : Nat → Json → List Json → List Json
  | 0, v, xs => v :: xs
  | _ + 1, v, [] => [v]
  | n + 1, v, x :: xs => x :: insertAt n v xs

/-- Delete the element at position `i`, shifting the elements above it one
position to the left. -/
def removeIdx : Nat → List Json → List Json
  | _, [] => []
  | 0, _ :: xs => xs
  | n + 1, x :: xs => x :: removeIdx n xs

/-- Modelled from the spec: the pointer resolver — walk the unescaped
tokens from the root, by key in objects and by valid index in arrays,
returning the addressed node or nothing. -/
def getAt : Json → List String → Option Json
  | v, [] => some v
  | .obj ms, t :: rest =>
      match lookupMember t ms with
      | some w => getAt w rest
      | none => none
  | .arr xs, t :: rest =>
      match parseIndexToken t with
      | some i =>
          match xs.get? i with
          | some w => getAt w rest
          | none => none
      | none => none
  | _, _ :: _ => none

/-- Modelled from the spec: the mutator's `add`.  At the root the value
replaces the whole document; in an object the member is set with
overwrite semantics; in an array the last token must be a valid index at
most the length (insert, shifting right) or `-` (append), an index
strictly greater than the length being `invalidIndex`.  The immediate
parent must exist and be a container. -/
def addAt : Json → List String → Json → Except ErrKind Json
  | _, [], v => .ok v
  | .obj ms, [k], v => .ok (.obj (setMember k v ms))
  | .arr xs, [t], v =>
      if t = "-" then .ok (.arr (xs ++ [v]))
      else
        match parseIndexToken t with
        | some i =>
            if i ≤ xs.length then .ok (.arr (insertAt i v xs))
            else .error .invalidIndex
        | none => .error .invalidIndex
  | .obj ms, t :: rest, v =>
      match lookupMember t ms with
      | some w =>
          match addAt w rest v with
          | .ok w2 => .ok (.obj (setMember t w2 ms))
          | .error e => .error e
      | none => .error .pathNotFound
  | .arr xs, t :: rest, v =>
      match parseIndexToken t with
      | some i =>
          match xs.get? i with
          | some w =>
              match addAt w rest v with
              | .ok w2 => .ok (.arr (xs.set i w2))
              | .error e => .error e
          | none => .error .pathNotFound
      | none => .error .invalidIndex
  | _, _ :: _, _ => .error .pathNotFound

/-- Modelled from the spec: the mutator's `remove`.  The target must
exist; an array element is deleted with a left shift, an object member is
deleted.  Returns the new document together with the removed value. -/
def removeAt : Json → List String → Except ErrKind (Json × Json)
  | _, [] => .error .pathNotFound
  | .obj ms, [k] =>
      match lookupMember k ms with
      | some v => .ok (.obj (eraseMember k ms), v)
      | none => .error .pathNotFound
  | .arr xs, [t] =>
      match parseIndexToken t with
      | some i =>
          match xs.get? i with
          | some v => .ok (.arr (removeIdx i xs), v)
          | none => .error .invalidIndex
      | none => .error .invalidIndex
  | .obj ms, t :: rest =>
      match lookupMember t ms with
      | some w =>
          match removeAt w rest with
          | .ok (w2, v) => .ok (.obj (setMember t w2 ms), v)
          | .error e => .error e
      | none => .error .pathNotFound
  | .arr xs, t :: rest =>
      match parseIndexToken t with
      | some i =>
          match xs.get? i with
          | some w =>
              match removeAt w rest with
              | .ok (w2, v) => .ok (.arr (xs.set i w2), v)
              | .error e => .error e
          | none => .error .pathNotFound
      | none => .error .invalidIndex
  | _, _ :: _ => .error .pathNotFound

/-- Modelled from the spec: the mutator's `replace` — the target must
exist, and its value is replaced (observably remove-then-add, also at the
root). -/
def replaceAt : Json → List String → Json → Except ErrKind Json
  | _, [], v => .ok v
  | .obj ms, [k], v =>
      match lookupMember k ms with
      | some _ => .ok (.obj (setMember k v ms))
      | none => .error .pathNotFound
  | .arr xs, [t], v =>
      match parseIndexToken t with
      | some i =>
          if i < xs.length then .ok (.arr (xs.set i v))
          else .error .invalidIndex
      | none => .error .invalidIndex
  | .obj ms, t :: rest, v =>
      match lookupMember t ms with
      | some w =>
          match replaceAt w rest v with
          | .ok w2 => .ok (.obj (setMember t w2 ms))
          | .error e => .error e
      | none => .error .pathNotFound
  | .arr xs, t :: rest, v =>
      match parseIndexToken t with
      | some i =>
          match xs.get? i with
          | some w =>
              match replaceAt w rest v with
              | .ok w2 => .ok (.arr (xs.set i w2))
              | .error e => .error e
          | none => .error .pathNotFound
      | none => .error .invalidIndex
  | _, _ :: _, _ => .error .pathNotFound

/-- Token-wise strict-ancestor test: the first token list is a proper
prefix of the second (so `/a` is an ancestor of `/a/b` but not of
`/ab`). -/
def isStrictAncestor : List String → List String → Bool
  | [], [] => false
  | [], _ :: _ => true
  | _ :: _, [] => false
  | a :: as, b :: bs => a == b && isStrictAncestor as bs

/-- A patch operation record, the tagged union of the six kinds (`op`
is the constructor tag, `path` and `from` are pointer strings, `value`
is a document node). -/
inductive Op where
  | add (path : String) (value : Json)
  | remove (path : String)
  | replace (path : String) (value : Json)
  | move (fromPath : String) (path : String)
  | copy (fromPath : String) (path : String)
  | test (path : String) (value : Json)
deriving Repr

/-- Modelled from the spec: apply one operation to a document, yielding
the new document or the operation's error.  `move` first rejects a `from`
that is a token-wise proper prefix of `path` (`invalidMoveTarget`), then
removes at `from` and adds the removed value at `path`; `copy` adds a
copy of the value resolved at `from`; `test` compares the resolved value
with `deepEqual`. -/
def applyOp (doc : Json) : Op → Except ErrKind Json
  | .add p v =>
      match parsePointer p with
      | some pt => addAt doc pt v
      | none => .error .malformedPointer
  | .remove p =>
      match parsePointer p with
      | some pt =>
          match removeAt doc pt with
          | .ok (d2, _) => .ok d2
          | .error e => .error e
      | none => .error .malformedPointer
  | .replace p v =>
      match parsePointer p with
      | some pt => replaceAt doc pt v
      | none => .error .malformedPointer
  | .move f p =>
      match parsePointer f, parsePointer p with
      | some ft, some pt =>
          if isStrictAncestor ft pt then .error .invalidMoveTarget
          else
            match removeAt doc ft with
            | .ok (d2, v) => addAt d2 pt v
            | .error e => .error e
      | _, _ => .error .malformedPointer
  | .copy f p =>
      match parsePointer f, parsePointer p with
      | some ft, some pt =>
          match getAt doc ft with
          | some v => addAt doc pt v
          | none => .error .pathNotFound
      | _, _ => .error .malformedPointer
  | .test p v =>
      match parsePointer p with
      | some pt =>
          match getAt doc pt with
          | some w => if deepEqual w v then .ok doc else .error .testFailed
          | none => .error .testTargetMissing
      | none => .error .malformedPointer

/-- Run operations in sequence on a working document, stopping at the
first error (without index bookkeeping). -/
def seqRun : Json → List Op → Except ErrKind Json
  | d, [] => .ok d
  | d, op :: rest =>
      match applyOp d op with
      | .ok d2 => seqRun d2 rest
      | .error e => .error e

/-- Modelled from the spec: the interpreter loop — operations run
strictly in sequence on the working document, and the first failure
aborts with its operation index and error kind. -/
def runPatch : Json → Nat → List Op → Except (Nat × ErrKind) Json
  | d, _, [] => .ok d
  | d, i, op :: rest =>
      match applyOp d op with
      | .ok d2 => runPatch d2 (i + 1) rest
      | .error e => .error (i, e)

/-- Outcome of a whole patch application: the committed new document, or
an abort carrying the document the caller observes, the failing operation
index and the error kind. -/
inductive ApplyResult where
  | committed (doc : Json)
  | aborted (doc : Json) (opIndex : Nat) (err : ErrKind)
deriving Repr

/-- Modelled from the spec: `apply(document, patch)` — all-or-nothing:
a committed run yields the final working document, an aborted run yields
the original document (snapshot/rollback) with the failing index and
error. -/
def apply (doc : Json) (patch : List Op) : ApplyResult :=
  match runPatch doc 0 patch with
  | .ok d => .committed d
  | .error (k, e) => .aborted doc k e

/-! The type layer, embedded from `src/types.ts`. -/

/-- The template-literal type of the `path` (and `from`) fields in
`src/types.ts`: `` `/${string}` `` — the strings that start with the
character `/` (in particular the empty string does not inhabit it). -/
def operationPathType (s : String) : Bool :=
  match s.data with
  | [] => false
  | c :: _ => c = '/'

/-- A host-language (TypeScript) runtime value as far as the type layer
is concerned: a document node, or a value outside the document value
domain such as `undefined` or a function. -/
inductive HostValue where
  | jsonVal (j : Json)
  | undefinedVal
  | functionVal
deriving Repr

/-- Whether a host value lies in the document value domain
(object/array/string/number/boolean/null). -/
def isDocumentNode : HostValue → Bool
  | .jsonVal _ => true
  | _ => false

/-- `AddOperation` from `src/types.ts`: `op: "add"` (carried by the
record's identity), `path: /${string}`, `value: unknown` — the `value`
field accepts every host value. -/
structure AddOperationRecord where
  path : String
  pathOk : operationPathType path = true
  value : HostValue

/-- `ReplaceOperation` from `src/types.ts`: `path: /${string}`,
`value: unknown`. -/
structure ReplaceOperationRecord where
  path : String
  pathOk : operationPathType path = true
  value : HostValue

/-- `TestOperation` from `src/types.ts`: `path: /${string}`,
`value: unknown`. -/
structure TestOperationRecord where
  path : String
  pathOk : operationPathType path = true
  value : HostValue

/-! Helper lemmas about object member update. -/

theorem lookupMember_setMember_self (k : String) (v : Json) :
    ∀ ms, lookupMember k (setMember k v ms) = some v := by
  intro ms
  induction ms with
  | nil => simp [setMember, lookupMember]
  | cons kv rest ih =>
      obtain ⟨k', w'⟩ := kv
      by_cases h : k' = k
      · simp [setMember, lookupMember, h]
      · simp [setMember, lookupMember, h, ih]

theorem lookupMember_setMember_other (k k' : String) (v : Json) (hne : k' ≠ k) :
    ∀ ms, lookupMember k' (setMember k v ms) = lookupMember k' ms := by
  intro ms
  induction ms with
  | nil => simp [setMember, lookupMember, Ne.symm hne]
  | cons kv rest ih =>
      obtain ⟨k'', w''⟩ := kv
      by_cases h : k'' = k
      · subst h
        simp [setMember, lookupMember, Ne.symm hne, ih]
      · simp only [setMember, if_neg h]
        by_cases h2 : k'' = k'
        · simp [lookupMember, h2]
        · simp [lookupMember, h2, ih]

/-- C6: an `add` whose path is the root pointer (the empty string)
succeeds on every document and the result is exactly the supplied value,
replacing the entire previous content. -/
theorem add_at_root_replaces_document (D : Json) (v : Json) :
    applyOp D (Op.add "" v) = .ok v ∧ apply D [Op.add "" v] = .committed v := by
  constructor <;> cases D <;> rfl

/-- C7: the claim reads the type layer as admitting a `path` that is
either a string starting with `/` or the empty string (the root pointer).
The declared field type `` `/${string}` `` in `src/types.ts` accepts
`/`-initial strings but rejects the empty string, so a root-targeting
operation — required by the `AddOperation` documentation in the same file
and accepted by the engine's pointer parser — cannot be typed. -/
theorem operationPathType_rejects_root_pointer :
    operationPathType "" = false ∧ operationPathType "/a" = true ∧
    parsePointer "" = some [] :=
  ⟨rfl, rfl, rfl⟩

/-- C10: the `value` member of add, replace and test is typed `unknown`:
every host value is accepted at the type level, including values outside
the document value domain such as `undefined`. -/
theorem value_field_unconstrained :
    (∀ v : HostValue, ∃ o : AddOperationRecord, o.value = v) ∧
    (∀ v : HostValue, ∃ o : ReplaceOperationRecord, o.value = v) ∧
    (∀ v : HostValue, ∃ o : TestOperationRecord, o.value = v) ∧
    (∃ v : HostValue, isDocumentNode v = false ∧
      ∃ o : AddOperationRecord, o.value = v) :=
  ⟨fun v => ⟨⟨"/a", rfl, v⟩, rfl⟩, fun v => ⟨⟨"/a", rfl, v⟩, rfl⟩,
   fun v => ⟨⟨"/a", rfl, v⟩, rfl⟩,
   ⟨.undefinedVal, rfl, ⟨⟨"/a", rfl, .undefinedVal⟩, rfl⟩⟩⟩

/-- C8: adding at an object member that already exists succeeds and
overwrites that member's value; members under other keys are unchanged,
and the pre-existence of the member is never an error. -/
theorem add_existing_member_overwrites (ms : List (String × Json))
    (k : String) (v w : Json) (hex : lookupMember k ms = some w) :
    addAt (Json.obj ms) [k] v = .ok (Json.obj (setMember k v ms)) ∧
    lookupMember k (setMember k v ms) = some v ∧
    ∀ k', k' ≠ k → lookupMember k' (setMember k v ms) = lookupMember k' ms :=
  ⟨rfl, lookupMember_setMember_self k v ms,
   fun k' hne => lookupMember_setMember_other k k' v hne ms⟩

theorem add_existing_member_overwrites_witness :
    addAt (Json.obj [("a", Json.num 1 0)]) ["a"] (Json.num 2 0)
      = .ok (Json.obj (setMember "a" (Json.num 2 0) [("a", Json.num 1 0)])) ∧
    lookupMember "a" (setMember "a" (Json.num 2 0) [("a", Json.num 1 0)])
      = some (Json.num 2 0) :=
  ⟨(add_existing_member_overwrites [("a", Json.num 1 0)] "a" (Json.num 2 0)
      (Json.num 1 0) rfl).1,
   (add_existing_member_overwrites [("a", Json.num 1 0)] "a" (Json.num 2 0)
      (Json.num 1 0) rfl).2.1⟩

/-- C3: a `move` whose `from` is a token-wise proper prefix of `path` is
rejected with `invalidMoveTarget` on every document (so also when `from`
exists and both pointers are well-formed); the prefix test is token-wise:
`/a` is an ancestor of `/a/b` but not of `/ab`. -/
theorem move_into_own_child_rejected :
    (∀ (doc : Json) (fs ps : String) (ft pt : List String),
        parsePointer fs = some ft → parsePointer ps = some pt →
        isStrictAncestor ft pt = true →
        applyOp doc (Op.move fs ps) = .error .invalidMoveTarget) ∧
    isStrictAncestor ["a"] ["a", "b"] = true ∧
    isStrictAncestor ["a"] ["ab"] = false := by
  refine ⟨?_, by decide, by decide⟩
  intro doc fs ps ft pt hf hp hanc
  simp [applyOp, hf, hp, hanc]

theorem move_into_own_child_rejected_witness :
    applyOp (Json.obj [("a", Json.obj [("b", Json.num 1 0)])]) (Op.move "/a" "/a/b")
      = .error .invalidMoveTarget :=
  move_into_own_child_rejected.1 _ "/a" "/a/b" ["a"] ["a", "b"]
    (by decide) (by decide) (by decide)

/-! Helper lemmas about array insertion. -/

theorem insertAt_length (v : Json) :
    ∀ (i : Nat) (xs : List Json), i ≤ xs.length →
      (insertAt i v xs).length = xs.length + 1 := by
  intro i
  induction i with
  | zero => intro xs _; rfl
  | succ n ih =>
      intro xs h
      cases xs with
      | nil => exact absurd h (by simp)
      | cons x xs => simp [insertAt, ih xs (by simpa using h)]

theorem insertAt_get_self (v : Json) :
    ∀ (i : Nat) (xs : List Json), i ≤ xs.length →
      (insertAt i v xs).get? i = some v := by
  intro i
  induction i with
  | zero => intro xs _; rfl
  | succ n ih =>
      intro xs h
      cases xs with
      | nil => exact absurd h (by simp)
      | cons x xs => simpa [insertAt] using ih xs (by simpa using h)

theorem insertAt_get_below (v : Json) :
    ∀ (i : Nat) (xs : List Json), i ≤ xs.length →
      ∀ j, j < i → (insertAt i v xs).get? j = xs.get? j := by
  intro i
  induction i with
  | zero => intro xs _ j hj; omega
  | succ n ih =>
      intro xs h j hj
      cases xs with
      | nil => exact absurd h (by simp)
      | cons x xs =>
          cases j with
          | zero => rfl
          | succ m =>
              simpa [insertAt] using ih xs (by simpa using h) m (by omega)

theorem insertAt_get_above (v : Json) :
    ∀ (i : Nat) (xs : List Json), i ≤ xs.length →
      ∀ j, i ≤ j → (insertAt i v xs).get? (j + 1) = xs.get? j := by
  intro i
  induction i with
  | zero => intro xs _ j _; rfl
  | succ n ih =>
      intro xs h j hj
      cases xs with
      | nil => exact absurd h (by simp)
      | cons x xs =>
          cases j with
          | zero => omega
          | succ m =>
              simpa [insertAt] using ih xs (by simpa using h) m (by omega)

/-- C2: adding into an array parent of length `n`: a valid index token
`i ≤ n` inserts the value at position `i` and shifts the elements at
position `i` and above one position to the right; the token `-` appends
at position `n`; a valid index token `i > n` fails with `invalidIndex`
and nothing is inserted. -/
theorem add_into_array_semantics :
    (∀ (xs : List Json) (v : Json) (t : String) (i : Nat),
        parseIndexToken t = some i → i ≤ xs.length →
        addAt (Json.arr xs) [t] v = .ok (Json.arr (insertAt i v xs))) ∧
    (∀ (xs : List Json) (v : Json),
        addAt (Json.arr xs) ["-"] v = .ok (Json.arr (xs ++ [v]))) ∧
    (∀ (xs : List Json) (v : Json) (t : String) (i : Nat),
        parseIndexToken t = some i → xs.length < i →
        addAt (Json.arr xs) [t] v = .error .invalidIndex) ∧
    (∀ (i : Nat) (v : Json) (xs : List Json), i ≤ xs.length →
        (insertAt i v xs).length = xs.length + 1 ∧
        (insertAt i v xs).get? i = some v ∧
        (∀ j, j < i → (insertAt i v xs).get? j = xs.get? j) ∧
        (∀ j, i ≤ j → (insertAt i v xs).get? (j + 1) = xs.get? j)) := by
  have hdash : ∀ (t : String) (i : Nat), parseIndexToken t = some i → t ≠ "-" := by
    intro t i hpt he
    subst he
    rw [show parseIndexToken "-" = none from rfl] at hpt
    cases hpt
  refine ⟨?_, ?_, ?_, ?_⟩
  · intro xs v t i hpt hle
    simp [addAt, hdash t i hpt, hpt, hle]
  · intro xs v
    rfl
  · intro xs v t i hpt hlt
    simp [addAt, hdash t i hpt, hpt, show ¬ i ≤ xs.length by omega]
  · intro i v xs hle
    exact ⟨insertAt_length v i xs hle, insertAt_get_self v i xs hle,
      insertAt_get_below v i xs hle, insertAt_get_above v i xs hle⟩

theorem add_into_array_semantics_witness :
    addAt (Json.arr [Json.num 1 0, Json.num 2 0]) ["5"] (Json.num 3 0)
      = .error .invalidIndex ∧
    addAt (Json.arr [Json.num 1 0, Json.num 2 0]) ["1"] (Json.num 3 0)
      = .ok (Json.arr (insertAt 1 (Json.num 3 0) [Json.num 1 0, Json.num 2 0])) ∧
    addAt (Json.arr [Json.num 1 0, Json.num 2 0]) ["-"] (Json.num 3 0)
      = .ok (Json.arr ([Json.num 1 0, Json.num 2 0] ++ [Json.num 3 0])) :=
  ⟨add_into_array_semantics.2.2.1 [Json.num 1 0, Json.num 2 0] (Json.num 3 0) "5" 5
      (by decide) (by decide),
   add_into_array_semantics.1 [Json.num 1 0, Json.num 2 0] (Json.num 3 0) "1" 1
      (by decide) (by decide),
   add_into_array_semantics.2.1 [Json.num 1 0, Json.num 2 0] (Json.num 3 0)⟩

/-! Helper lemmas for the interpreter loop. -/

theorem runPatch_first_failure :
    ∀ (ops : List Op) (work : Json) (i k : Nat) (e : ErrKind) (dk : Json)
      (hk : k < ops.length),
      seqRun work (ops.take k) = .ok dk →
      applyOp dk (ops.get ⟨k, hk⟩) = .error e →
      runPatch work i ops = .error (i + k, e) := by
  intro ops
  induction ops with
  | nil =>
      intro work i k e dk hk
      exact absurd hk (by simp)
  | cons op rest ih =>
      intro work i k e dk hk hpre hfail
      cases k with
      | zero =>
          simp only [List.take_zero, seqRun, Except.ok.injEq] at hpre
          subst hpre
          simp only [List.get] at hfail
          simp [runPatch, hfail]
      | succ k' =>
          rw [List.take_succ_cons] at hpre
          cases hop : applyOp work op with
          | ok d2 =>
              simp only [seqRun, hop] at hpre
              simp only [List.get] at hfail
              have h := ih d2 (i + 1) k' e dk (by simpa using hk) hpre hfail
              have heq : i + (k' + 1) = i + 1 + k' := by omega
              rw [heq]
              simp only [runPatch, hop]
              exact h
          | error e2 =>
              simp only [seqRun, hop] at hpre
              cases hpre

theorem apply_aborted_doc (D : Json) (P : List Op) (d : Json) (k : Nat) (e : ErrKind)
    (h : apply D P = .aborted d k e) : d = D := by
  unfold apply at h
  cases hr : runPatch D 0 P with
  | ok d2 =>
      rw [hr] at h
      cases h
  | error pe =>
      obtain ⟨k', e'⟩ := pe
      rw [hr] at h
      injection h with h1 h2 h3
      exact h1.symm

/-- C1: if the patch `P` has its first failing operation at index `k`
(the operations before `k` run successfully on the working document,
producing `dk`, and operation `k` fails on `dk` with error `e`), then
`apply D P` aborts reporting index `k` and error `e`, and the document
the caller observes is exactly the original `D`, however many operations
succeeded transiently before `k`. -/
theorem apply_aborts_atomically (D : Json) (P : List Op) (k : Nat) (e : ErrKind)
    (dk : Json) (hk : k < P.length)
    (hpre : seqRun D (P.take k) = .ok dk)
    (hfail : applyOp dk (P.get ⟨k, hk⟩) = .error e) :
    apply D P = .aborted D k e := by
  have h := runPatch_first_failure P D 0 k e dk hk hpre hfail
  simp [apply, h]

theorem apply_aborts_atomically_witness :
    apply (Json.obj [("a", Json.num 1 0)]) [Op.add "/b" (Json.num 2 0), Op.remove "/c"]
      = .aborted (Json.obj [("a", Json.num 1 0)]) 1 .pathNotFound :=
  apply_aborts_atomically (Json.obj [("a", Json.num 1 0)])
    [Op.add "/b" (Json.num 2 0), Op.remove "/c"] 1 .pathNotFound
    (Json.obj [("a", Json.num 1 0), ("b", Json.num 2 0)]) (by decide) rfl rfl

/-- C9: `apply` is deterministic and all-or-nothing, so retrying with the
same patch on the document the caller observes after a failure fails
identically: if `apply D P` aborted with document `d`, index `k` and
error `e`, then `apply d P` aborts with the same document, index and
error. -/
theorem apply_retry_fails_identically (D : Json) (P : List Op) (d : Json)
    (k : Nat) (e : ErrKind) (h : apply D P = .aborted d k e) :
    apply d P = .aborted d k e := by
  have hd := apply_aborted_doc D P d k e h
  subst hd
  exact h

theorem apply_retry_fails_identically_witness :
    apply (Json.obj []) [Op.remove "/x"] = .aborted (Json.obj []) 0 .pathNotFound :=
  apply_retry_fails_identically (Json.obj []) [Op.remove "/x"] (Json.obj [])
    0 .pathNotFound rfl

/-- C4: a `move` whose `from` exists (removal yields document `d1` and
value `v`) and is not a token-wise proper prefix of `path` behaves as the
two-operation patch remove-at-`from` then add-at-`path` of the removed
value: the removal is evaluated first, so the add's pointer is
interpreted against the already-shifted document `d1`. -/
theorem move_is_remove_then_add (doc : Json) (fs ps : String)
    (ft pt : List String) (d1 v : Json)
    (hf : parsePointer fs = some ft) (hp : parsePointer ps = some pt)
    (hanc : isStrictAncestor ft pt = false)
    (hrem : removeAt doc ft = .ok (d1, v)) :
    applyOp doc (Op.move fs ps) = seqRun doc [Op.remove fs, Op.add ps v] ∧
    applyOp doc (Op.move fs ps) = addAt d1 pt v := by
  have hL : applyOp doc (Op.move fs ps) = addAt d1 pt v := by
    simp [applyOp, hf, hp, hanc, hrem]
  have hR : seqRun doc [Op.remove fs, Op.add ps v] = addAt d1 pt v := by
    simp only [seqRun, applyOp, hf, hp, hrem]
    cases ha : addAt d1 pt v with
    | ok d2 => simp [seqRun]
    | error e2 => simp
  exact ⟨hL.trans hR.symm, hL⟩

/-! Helper lemmas characterizing the deep-equality comparator. -/

theorem deepEqual_type_mismatch (a b : Json) (h : jsonType a ≠ jsonType b) :
    deepEqual a b = false := by
  cases a <;> cases b <;> first
    | exact absurd rfl h
    | simp [deepEqual]

theorem deepEqual_num_iff (m1 : Int) (e1 : Nat) (m2 : Int) (e2 : Nat) :
    deepEqual (Json.num m1 e1) (Json.num m2 e2) = true ↔
      m1 * 10 ^ e2 = m2 * 10 ^ e1 := by
  simp [deepEqual]

theorem deepEqualList_iff : ∀ xs ys : List Json,
    deepEqualList xs ys = true ↔
      xs.length = ys.length ∧
      ∀ (i : Nat) (x y : Json), xs.get? i = some x → ys.get? i = some y →
        deepEqual x y = true := by
  intro xs
  induction xs with
  | nil =>
      intro ys
      cases ys with
      | nil => simp [deepEqualList]
      | cons y ys => simp [deepEqualList]
  | cons x xs ih =>
      intro ys
      cases ys with
      | nil => simp [deepEqualList]
      | cons y ys =>
          simp only [deepEqualList, Bool.and_eq_true, ih, List.length_cons]
          constructor
          · rintro ⟨hxy, hlen, htail⟩
            refine ⟨by omega, ?_⟩
            intro i a b ha hb
            cases i with
            | zero =>
                simp only [List.get?_cons_zero, Option.some.injEq] at ha hb
                subst ha; subst hb
                exact hxy
            | succ n =>
                exact htail n a b (by simpa using ha) (by simpa using hb)
          · rintro ⟨hlen, hall⟩
            refine ⟨hall 0 x y rfl rfl, by omega, ?_⟩
            intro i a b ha hb
            exact hall (i + 1) a b (by simpa using ha) (by simpa using hb)

theorem deepEqual_arr_iff (xs ys : List Json) :
    deepEqual (Json.arr xs) (Json.arr ys) = true ↔
      xs.length = ys.length ∧
      ∀ (i : Nat) (x y : Json), xs.get? i = some x → ys.get? i = some y →
        deepEqual x y = true := by
  have h0 : deepEqual (Json.arr xs) (Json.arr ys) = deepEqualList xs ys := by
    simp [deepEqual]
  rw [h0]
  exact deepEqualList_iff xs ys

theorem deepEqualMembers_iff : ∀ ms ns : List (String × Json),
    deepEqualMembers ms ns = true ↔
      ∀ (k : String) (v : Json), (k, v) ∈ ms →
        ∃ w, lookupMember k ns = some w ∧ deepEqual v w = true := by
  intro ms ns
  induction ms with
  | nil => simp [deepEqualMembers]
  | cons kv rest ih =>
      obtain ⟨k, v⟩ := kv
      simp only [deepEqualMembers, Bool.and_eq_true, ih]
      constructor
      · rintro ⟨hhead, htail⟩
        intro k' v' hmem
        rcases List.mem_cons.mp hmem with heq | hmem'
        · injection heq with h1 h2
          rw [h1, h2]
          cases hl : lookupMember k ns with
          | none => rw [hl] at hhead; cases hhead
          | some w =>
              rw [hl] at hhead
              exact ⟨w, rfl, hhead⟩
        · exact htail k' v' hmem'
      · intro hall
        constructor
        · obtain ⟨w, hlk, hdeq⟩ := hall k v (List.mem_cons_self _ _)
          rw [hlk]
          exact hdeq
        · intro k' v' hmem'
          exact hall k' v' (List.mem_cons_of_mem _ hmem')

theorem deepEqual_obj_iff (ms ns : List (String × Json)) :
    deepEqual (Json.obj ms) (Json.obj ns) = true ↔
      ms.length = ns.length ∧
      ∀ (k : String) (v : Json), (k, v) ∈ ms →
        ∃ w, lookupMember k ns = some w ∧ deepEqual v w = true := by
  have h0 : deepEqual (Json.obj ms) (Json.obj ns)
      = (ms.length == ns.length && deepEqualMembers ms ns) := by
    simp [deepEqual]
  rw [h0, Bool.and_eq_true, Nat.beq_eq_true_eq, deepEqualMembers_iff]

/-- C5: the deep-equality comparator is a total function on the document
value domain with: type mismatch unequal; numbers compared by numeric
value (`1` equals `1.0`); arrays equal iff equal length and pairwise
equal in order (so `[1,2]` and `[2,1]` differ); objects equal iff equal
member count and every member of one has an equal-valued counterpart
under the same key in the other, independent of member order (so
`{"a":1,"b":2}` equals `{"b":2,"a":1}`). -/
theorem deepEqual_characterization :
    (∀ a b : Json, jsonType a ≠ jsonType b → deepEqual a b = false) ∧
    (∀ (m1 : Int) (e1 : Nat) (m2 : Int) (e2 : Nat),
        deepEqual (Json.num m1 e1) (Json.num m2 e2) = true ↔
          m1 * 10 ^ e2 = m2 * 10 ^ e1) ∧
    deepEqual (Json.num 1 0) (Json.num 10 1) = true ∧
    (∀ xs ys : List Json,
        deepEqual (Json.arr xs) (Json.arr ys) = true ↔
          xs.length = ys.length ∧
          ∀ (i : Nat) (x y : Json), xs.get? i = some x → ys.get? i = some y →
            deepEqual x y = true) ∧
    deepEqual (Json.arr [Json.num 1 0, Json.num 2 0])
      (Json.arr [Json.num 2 0, Json.num 1 0]) = false ∧
    (∀ ms ns : List (String × Json),
        deepEqual (Json.obj ms) (Json.obj ns) = true ↔
          ms.length = ns.length ∧
          ∀ (k : String) (v : Json), (k, v) ∈ ms →
            ∃ w, lookupMember k ns = some w ∧ deepEqual v w = true) ∧
    deepEqual (Json.obj [("a", Json.num 1 0), ("b", Json.num 2 0)])
      (Json.obj [("b", Json.num 2 0), ("a", Json.num 1 0)]) = true :=
  ⟨deepEqual_type_mismatch, deepEqual_num_iff, by simp [deepEqual],
   deepEqual_arr_iff, by simp [deepEqual, deepEqualList],
   deepEqual_obj_iff, by simp [deepEqual, deepEqualMembers, lookupMember]⟩

theorem deepEqual_characterization_witness :
    deepEqual Json.null (Json.bool true) = false ∧
    deepEqual (Json.num 2 0) (Json.num 20 1) = true :=
  ⟨deepEqual_characterization.1 Json.null (Json.bool true) (by decide),
   (deepEqual_characterization.2.1 2 0 20 1).mpr (by norm_num)⟩

theorem move_is_remove_then_add_witness :
    applyOp (Json.arr [Json.str "a", Json.str "b", Json.str "c"]) (Op.move "/0" "/1")
      = seqRun (Json.arr [Json.str "a", Json.str "b", Json.str "c"])
          [Op.remove "/0", Op.add "/1" (Json.str "a")] ∧
    applyOp (Json.arr [Json.str "a", Json.str "b", Json.str "c"]) (Op.move "/0" "/1")
      = addAt (Json.arr [Json.str "b", Json.str "c"]) ["1"] (Json.str "a") :=
  move_is_remove_then_add (Json.arr [Json.str "a", Json.str "b", Json.str "c"])
    "/0" "/1" ["0"] ["1"] (Json.arr [Json.str "b", Json.str "c"]) (Json.str "a")
    (by decide) (by decide) (by decide) rfl

end JsonPatch
